import Mathlib

/-!
Shallow embedding of the time-series return/aggregation engine of
`danaelbaba.py` (PySpark): dataset building (schema + `dropna`), window
columns (`Prev_Close`, `Daily_Return`, `Moving_Avg_5`), the moving-average
operation, the period return-rate aggregator, the best-performer selector
and the pairwise correlation engine, together with proofs of the spec's
claims about them.

Modeling conventions:
* A Spark `DataFrame` is a `List` of row structures, in row order.  On a
  single partition Spark's order-sensitive aggregates (`first`, `last`)
  read rows in this order.
* Spark `DateType` is internally a number of days since the epoch
  1970-01-01; we model a date as that `Int`.  The calendar functions
  `year`, `month`, `weekofyear` are translated from the proleptic
  Gregorian calendar algorithms (`weekofyear` is the ISO 8601 week).
* Spark `DoubleType` values coming from prices are modeled as `ℚ`;
  nullable columns as `Option ℚ`.  A double division whose denominator is
  zero produces no real number (IEEE gives `±Infinity` or `NaN`, which
  Spark propagates); this is modeled by `divUndef` returning `none`.
-/

namespace StockAnalysis

/-- Spark `DateType`: days since the epoch 1970-01-01. -/
abbrev Date := Int

/-- Convert an epoch-day count to a proleptic Gregorian `(year, month, day)`
triple (Howard Hinnant's `civil_from_days`, written with Lean's floor
division on `Int`, which agrees with the required floor semantics because
every divisor is positive). -/
def civilFromDays (z0 : Date) : Int × Int × Int :=
  let z := z0 + 719468
  let era := z / 146097
  let doe := z - era * 146097
  let yoe := (doe - doe / 1460 + doe / 36524 - doe / 146096) / 365
  let y := yoe + era * 400
  let doy := doe - (365 * yoe + yoe / 4 - yoe / 100)
  let mp := (5 * doy + 2) / 153
  let d := doy - (153 * mp + 2) / 5 + 1
  let m := mp + (if mp < 10 then 3 else -9)
  (y + (if m ≤ 2 then 1 else 0), m, d)

/-- Convert a proleptic Gregorian date to its epoch-day count
(Hinnant's `days_from_civil`). -/
def daysFromCivil (y0 m d : Int) : Date :=
  let y := y0 - (if m ≤ 2 then 1 else 0)
  let era := y / 400
  let yoe := y - era * 400
  let mp := (m + 9) % 12
  let doy := (153 * mp + 2) / 5 + d - 1
  let doe := yoe * 365 + yoe / 4 - yoe / 100 + doy
  era * 146097 + doe - 719468

/-- Spark SQL `year(Date)`. -/
def year (z : Date) : Int := (civilFromDays z).1

/-- Spark SQL `month(Date)`. -/
def month (z : Date) : Int := (civilFromDays z).2.1

/-- Spark SQL `dayofmonth(Date)`. -/
def dayOfMonth (z : Date) : Int := (civilFromDays z).2.2

/-- ISO 8601 weekday, 1 = Monday .. 7 = Sunday (1970-01-01 is a Thursday). -/
def isoWeekday (z : Date) : Int := (z + 3) % 7 + 1

/-- Spark SQL `weekofyear(Date)`: the ISO 8601 week number, computed as the
week of the year containing the date's nearest Thursday. -/
def weekofyear (z : Date) : Int :=
  let t := z + (4 - isoWeekday z)
  (t - daysFromCivil (year t) 1 1) / 7 + 1

/-- Spark double division `a / b` as used on price columns: when `b = 0`
the IEEE result is `±Infinity` or `NaN` — no real number — which Spark
propagates silently; modeled as `none`. -/
def divUndef (a b : ℚ) : Option ℚ := if b = 0 then none else some (a / b)

/-- One row as read under the CSV `schema` of lines 33–42: all price
columns are nullable `DoubleType`, `Date` is a nullable `DateType`, and
`Stock` is the non-null symbol tag added by `withColumn("Stock", lit(stock))`. -/
structure RawRow where
  date : Option Date
  adjClose : Option ℚ
  close : Option ℚ
  high : Option ℚ
  low : Option ℚ
  openPrice : Option ℚ
  volume : Option ℚ
  stock : String
deriving DecidableEq, Repr

/-- A fully populated row of the combined dataset after `dropna()`. -/
structure Row where
  date : Date
  adjClose : ℚ
  close : ℚ
  high : ℚ
  low : ℚ
  openPrice : ℚ
  volume : ℚ
  stock : String
deriving DecidableEq, Repr

/-- The row survives `combined_df.dropna()` iff every schema column is
non-null (the `Stock` tag is never null).  The preceding
`to_date(col("Date"), "yyyy-MM-dd")` of line 73 is the identity on an
already-`DateType` column, nulls included. -/
def toRow? (r : RawRow) : Option Row := do
  let dt ← r.date
  let ac ← r.adjClose
  let c ← r.close
  let hi ← r.high
  let lo ← r.low
  let o ← r.openPrice
  let v ← r.volume
  pure { date := dt, adjClose := ac, close := c, high := hi, low := lo,
         openPrice := o, volume := v, stock := r.stock }

/-- Lines 44–77: per-symbol CSV reads with the fixed schema, tagged with
their symbol, `union`ed in order, date-normalized, and stripped of every
row containing a null in any column by `dropna()`. -/
def buildDataset (raw : List RawRow) : List Row :=
  raw.filterMap toRow?

/-- The distinct values of a list in order of first appearance.  This is the
key order a deterministic single-partition Spark `groupBy` enumerates. -/
def firstOccur {κ : Type} [DecidableEq κ] : List κ → List κ
  | [] => []
  | k :: rest => k :: firstOccur (rest.filter (fun x => x ≠ k))
termination_by l => l.length
decreasing_by
  simp only [List.length_cons]
  exact Nat.lt_succ_of_le (List.length_filter_le _ _)

/-- The distinct symbols of the dataset in order of first appearance. -/
def symbolsInOrder (df : List Row) : List String :=
  firstOccur (df.map (fun r => r.stock))

/-- `Window.partitionBy("Stock")`: the rows of one symbol, in dataframe order. -/
def partitionRows (df : List Row) (s : String) : List Row :=
  df.filter (fun r => r.stock = s)

/-- The `orderBy("Date")` ordering of a window specification. -/
def rowLe (a b : Row) : Prop := a.date ≤ b.date

instance : DecidableRel rowLe := fun a b => by unfold rowLe; infer_instance

instance : IsTotal Row rowLe := ⟨fun a b => Int.le_total a.date b.date⟩

instance : IsTrans Row rowLe := ⟨fun _ _ _ h1 h2 => le_trans h1 h2⟩

/-- `Window.partitionBy("Stock").orderBy("Date")` applied to symbol `s`:
the symbol's rows sorted chronologically (stably, so rows sharing a date
keep their dataframe order). -/
def sortedPartition (df : List Row) (s : String) : List Row :=
  (partitionRows df s).insertionSort rowLe

/-- A row of `combined_df` after the derived columns of lines 81–95:
`Prev_Close` (`lag("Close")` over the window, null on a partition's first
row), `Daily_Return` (`(Close - Prev_Close) / Prev_Close`, null when
`Prev_Close` is null and non-real when it is zero) and `Moving_Avg_5`
(`mean("Close")` over `rowsBetween(-4, 0)`). -/
structure DRow extends Row where
  prevClose : Option ℚ
  dailyReturn : Option ℚ
  movingAvg5 : Option ℚ
deriving DecidableEq, Repr

/-- `avg(col)` over the window frame `rowsBetween(-(n-1), 0)` at row index
`i` of the date-ordered partition `p`: the frame holds the rows with
indices `max (i-n+1) 0 .. i` (`Nat` subtraction clips at 0 exactly as the
frame is clipped at the partition start), and the average of an empty
frame is null. -/
def frameAvg {α : Type} (f : α → ℚ) (n : Nat) (p : List α) (i : Nat) : Option ℚ :=
  let w := (p.take (i + 1)).drop (i + 1 - n)
  if w.isEmpty then none else some ((w.map f).sum / w.length)

/-- Lines 81–95 restricted to one date-ordered symbol partition. -/
def windowPartRows (p : List Row) : List DRow :=
  p.mapIdx (fun i r =>
    let prev : Option ℚ := if i = 0 then none else (p[i - 1]?).map (fun q => q.close)
    { toRow := r
      prevClose := prev
      dailyReturn := prev.bind (fun pc => divUndef (r.close - pc) pc)
      movingAvg5 := frameAvg (fun q => q.close) 5 p i })

/-- The Window Aggregator, lines 81–95: `Prev_Close`, `Daily_Return` and
`Moving_Avg_5` computed within each symbol's chronologically ordered
partition.  Spark leaves the row order of the result unspecified; the model
fixes it to sorted-within-partition, which the per-row claims never depend
on. -/
def windowAgg (df : List Row) : List DRow :=
  (symbolsInOrder df).flatMap (fun s => windowPartRows (sortedPartition df s))

/-- Lines 312–324, `calculate_moving_average(df, column_name, num_points)`:
a new column holding `avg(column)` over
`Window.partitionBy("Stock").orderBy("Date").rowsBetween(-num_points + 1, 0)`.
The column name is modeled as the getter of the named numeric field. -/
def calculate_moving_average (df : List Row) (column : Row → ℚ) (num_points : Nat) :
    List (Row × Option ℚ) :=
  (symbolsInOrder df).flatMap (fun s =>
    (sortedPartition df s).mapIdx (fun i r =>
      (r, frameAvg column num_points (sortedPartition df s) i)))

/-- `groupBy(key).agg(first("Close"), last("Close"))`: one entry per
distinct key, holding the first and the last `Close` in row-encounter
order within the group (deterministic single-partition semantics of
Spark's order-dependent `first`/`last` aggregates). -/
def groupFirstLast {κ : Type} [DecidableEq κ] (key : Row → κ) (df : List Row) :
    List (κ × ℚ × ℚ) :=
  (firstOccur (df.map key)).filterMap (fun k =>
    match df.filter (fun r => key r = k) with
    | [] => none
    | r :: rs => some (k, r.close, ((r :: rs).getLast (List.cons_ne_nil r rs)).close))

/-- `withColumn(..., ((last - first) / first) * 100)`: `first = 0` makes the
double division non-real (see `divUndef`). -/
def withReturnRate {κ : Type} (l : List (κ × ℚ × ℚ)) : List (κ × ℚ × ℚ × Option ℚ) :=
  l.map (fun e => (e.1, e.2.1, e.2.2,
    (divUndef (e.2.2 - e.2.1) e.2.1).map (fun q => q * 100)))

/-- Grouping key of the weekly table: `("Stock", "Year", "Week")`. -/
def weekKey (r : Row) : String × Int × Int := (r.stock, year r.date, weekofyear r.date)

/-- Grouping key of the monthly table: `("Stock", "Year", "Month")`. -/
def monthKey (r : Row) : String × Int × Int := (r.stock, year r.date, month r.date)

/-- Grouping key of the yearly table: `("Stock", "Year")`. -/
def yearKey (r : Row) : String × Int := (r.stock, year r.date)

/-- Lines 391–428, `calculate_return_rate(df)`: the weekly, monthly and
yearly tables of first/last close per `(Stock, period)` group with the
period return rate `((Last_Close - First_Close) / First_Close) * 100`. -/
def calculate_return_rate (df : List Row) :
    (List ((String × Int × Int) × ℚ × ℚ × Option ℚ)) ×
    (List ((String × Int × Int) × ℚ × ℚ × Option ℚ)) ×
    (List ((String × Int) × ℚ × ℚ × Option ℚ)) :=
  (withReturnRate (groupFirstLast weekKey df),
   withReturnRate (groupFirstLast monthKey df),
   withReturnRate (groupFirstLast yearKey df))

/-- Python `str.split("-")` on the characters of the argument. -/
def splitOnDash : List Char → List (List Char)
  | [] => [[]]
  | c :: rest =>
    if c = '-' then [] :: splitOnDash rest
    else
      match splitOnDash rest with
      | [] => [[c]]
      | t :: ts => (c :: t) :: ts

/-- Python `int(token)` on a dash-free token: a non-empty digit string
(Python additionally strips whitespace and accepts a sign and digit-group
underscores, which date strings never contain). -/
def parseIntToken (cs : List Char) : Option Int :=
  if cs = [] ∨ ¬ cs.all (fun c => c.isDigit) then none
  else some (Int.ofNat (cs.foldl (fun n c => 10 * n + (c.toNat - 48)) 0))

/-- Line 448, `start_year, start_month, _ = map(int, start_date.split("-"))`:
the string must split on `-` into exactly three int tokens (the day is
parsed and then discarded); otherwise `int` or the unpacking raises. -/
def parseStartDate (s : String) : Option (Int × Int) :=
  match (splitOnDash s.data).map parseIntToken with
  | [some y, some m, some _d] => some (y, m)
  | _ => none

/-- The two ways lines 442–458 of `best_return_rate` raise before grouping:
a `ValueError` from `int()` on a malformed `start_date`, and the explicit
`raise ValueError("Invalid period. Choose 'month' or 'year'.")`. -/
inductive BRErr where
  | parseError
  | invalidPeriod
deriving DecidableEq, Repr

/-- One row of the `best_stock` result of `best_return_rate`: the grouping
columns (`Month` only in the `period = "month"` branch) with the first and
last close and the return rate. -/
structure BestRow where
  stock : String
  year : Int
  month : Option Int
  firstClose : ℚ
  lastClose : ℚ
  returnRate : Option ℚ
deriving DecidableEq, Repr

/-- Strict comparison used to keep the best row while folding over the
groups, mirroring `orderBy(col("Return_Rate").desc()).limit(1)`: a null
rate never beats anything (Spark's `desc` places nulls last), and ties
keep the earlier group (the tie-break is undefined in the source; the
model picks the first-encountered maximum). -/
def rateGt : Option ℚ → Option ℚ → Bool
  | some x, some y => decide (y < x)
  | some _, none => true
  | none, _ => false

/-- `orderBy(col("Return_Rate").desc()).limit(1)` as a fold: `none` on an
empty table, otherwise the first row of maximal return rate. -/
def pickBest (l : List BestRow) : Option BestRow :=
  l.foldl (fun acc r =>
    match acc with
    | none => some r
    | some b => if rateGt r.returnRate b.returnRate then some r else some b) none

/-- Lines 442–472, `best_return_rate(df, start_date, period)`: parse the
start date, filter to its calendar period, group by
`["Stock", "Year", "Month"]` or `["Stock", "Year"]` with
`first("Close")`/`last("Close")`, add the return rate, and return the row
with the best rate (an empty filter yields an empty result, `none`).
A `period` that is neither `"month"` nor `"year"` raises. -/
def best_return_rate (df : List Row) (start_date : String) (period : String) :
    Except BRErr (Option BestRow) :=
  match parseStartDate start_date with
  | none => .error .parseError
  | some (sy, sm) =>
    if period = "month" then
      let filtered := df.filter (fun r => year r.date = sy ∧ month r.date = sm)
      let agg := withReturnRate (groupFirstLast monthKey filtered)
      .ok (pickBest (agg.map (fun e =>
        { stock := e.1.1, year := e.1.2.1, month := some e.1.2.2,
          firstClose := e.2.1, lastClose := e.2.2.1, returnRate := e.2.2.2 })))
    else if period = "year" then
      let filtered := df.filter (fun r => year r.date = sy)
      let agg := withReturnRate (groupFirstLast yearKey filtered)
      .ok (pickBest (agg.map (fun e =>
        { stock := e.1.1, year := e.1.2, month := none,
          firstClose := e.2.1, lastClose := e.2.2.1, returnRate := e.2.2.2 })))
    else .error .invalidPeriod

/-- The value returned by `joined_data.stat.corr(c1, c2)` (Pearson).  Spark
computes `ck / (sqrt xMk * sqrt yMk)` in doubles, where `ck` is the sum of
co-deviations and `xMk`, `yMk` the sums of squared deviations; when either
`xMk` or `yMk` is zero (in particular whenever fewer than two rows are
joined) the quotient is `0/0 = NaN`.  The model keeps the exact rational
data: `nan` is that `NaN`, and `val ck (xMk * yMk)` denotes the real
scalar `ck / Real.sqrt (xMk * yMk)`. -/
inductive CorrValue where
  | nan
  | val (cov : ℚ) (varprod : ℚ)
deriving DecidableEq, Repr

/-- Sum of `f` over a list. -/
def sumBy {α : Type} (f : α → ℚ) (l : List α) : ℚ := (l.map f).sum

/-- Mean of the first components of the joined sample. -/
def meanFst (l : List (ℚ × ℚ)) : ℚ := sumBy (fun p => p.1) l / l.length

/-- Mean of the second components of the joined sample. -/
def meanSnd (l : List (ℚ × ℚ)) : ℚ := sumBy (fun p => p.2) l / l.length

/-- `ck`: the sum of co-deviations of the joined sample. -/
def covSum (l : List (ℚ × ℚ)) : ℚ :=
  sumBy (fun p => (p.1 - meanFst l) * (p.2 - meanSnd l)) l

/-- `xMk`: the sum of squared deviations of the first series. -/
def varFst (l : List (ℚ × ℚ)) : ℚ := sumBy (fun p => (p.1 - meanFst l) ^ 2) l

/-- `yMk`: the sum of squared deviations of the second series. -/
def varSnd (l : List (ℚ × ℚ)) : ℚ := sumBy (fun p => (p.2 - meanSnd l) ^ 2) l

/-- `DataFrame.stat.corr` on the joined sample (see `CorrValue`). -/
def corrOfPairs (l : List (ℚ × ℚ)) : CorrValue :=
  if varFst l = 0 ∨ varSnd l = 0 then .nan
  else .val (covSum l) (varFst l * varSnd l)

/-- `df.filter(col("Stock") == s).select("Date", column)`: one symbol's
dated series of the chosen numeric field, in dataframe order. -/
def stockSeries (df : List Row) (s : String) (column : Row → ℚ) : List (Date × ℚ) :=
  (df.filter (fun r => r.stock = s)).map (fun r => (r.date, column r))

/-- `stock1_data.join(stock2_data, on="Date", how="inner")`: every pair of
rows sharing a date, driven by the left series. -/
def innerJoinOnDate (l1 l2 : List (Date × ℚ)) : List (ℚ × ℚ) :=
  l1.flatMap (fun a => (l2.filter (fun b => b.1 = a.1)).map (fun b => (a.2, b.2)))

/-- The date-aligned sample `calculate_correlation_between_stocks` feeds to
`stat.corr`. -/
def joinedPairs (df : List Row) (stock1 stock2 : String) (column : Row → ℚ) :
    List (ℚ × ℚ) :=
  innerJoinOnDate (stockSeries df stock1 column) (stockSeries df stock2 column)

/-- Lines 352–365, `calculate_correlation_between_stocks(df, stock1, stock2,
column)`: filter each symbol's series, inner-join them on `Date`, and
return `joined_data.stat.corr` of the two field columns.  The column name
is modeled as the getter of the named numeric field. -/
def calculate_correlation_between_stocks (df : List Row) (stock1 stock2 : String)
    (column : Row → ℚ) : CorrValue :=
  corrOfPairs (joinedPairs df stock1 stock2 column)

/-- The per-symbol chronological-order invariant of a `Dataset` (spec §3:
ordered by `(symbol, date)`): within every symbol the rows appear in
non-decreasing date order. -/
def perSymbolSorted (df : List Row) : Prop :=
  ∀ s ∈ df.map (fun r => r.stock),
    ((df.filter (fun r => r.stock = s)).map (fun r => r.date)).Sorted (· ≤ ·)

instance (df : List Row) : Decidable (perSymbolSorted df) := by
  unfold perSymbolSorted; infer_instance

/-! ### Basic facts about `firstOccur` and partition blocks -/

lemma mem_firstOccur {κ : Type} [DecidableEq κ] {l : List κ} {k : κ} :
    k ∈ firstOccur l ↔ k ∈ l := by
  induction l using firstOccur.induct with
  | case1 => simp [firstOccur]
  | case2 k0 rest ih =>
    simp only [firstOccur, List.mem_cons, ih, List.mem_filter, decide_eq_true_eq]
    constructor
    · rintro (rfl | ⟨hk, _⟩)
      · exact Or.inl rfl
      · exact Or.inr hk
    · rintro (rfl | hk)
      · exact Or.inl rfl
      · by_cases hkk : k = k0
        · exact Or.inl hkk
        · exact Or.inr ⟨hk, hkk⟩

lemma nodup_firstOccur {κ : Type} [DecidableEq κ] (l : List κ) :
    (firstOccur l).Nodup := by
  induction l using firstOccur.induct with
  | case1 => simp [firstOccur]
  | case2 k0 rest ih =>
    rw [firstOccur]
    refine List.Nodup.cons (fun hmem => ?_) ih
    rw [mem_firstOccur, List.mem_filter] at hmem
    simp at hmem

lemma firstOccur_flatMap_blocks {κ : Type} [DecidableEq κ] (ks : List κ)
    (B : κ → List κ) (hnd : ks.Nodup) (hne : ∀ k ∈ ks, B k ≠ [])
    (hconst : ∀ k ∈ ks, ∀ x ∈ B k, x = k) :
    firstOccur (ks.flatMap B) = ks := by
  induction ks with
  | nil => simp [firstOccur]
  | cons k ks' ih =>
    have hBk : B k ≠ [] := hne k (List.mem_cons_self k ks')
    obtain ⟨b, t, hbt⟩ := List.exists_cons_of_ne_nil hBk
    have hbk : b = k := hconst k (List.mem_cons_self k ks') b (by rw [hbt]; exact List.mem_cons_self b t)
    have hrest : ∀ x ∈ ks'.flatMap B, x ≠ k := by
      intro x hx
      rw [List.mem_flatMap] at hx
      obtain ⟨k', hk', hxk'⟩ := hx
      have := hconst k' (List.mem_cons_of_mem k hk') x hxk'
      subst this
      exact fun hxeq => (List.nodup_cons.mp hnd).1 (hxeq ▸ hk')
    have ht : ∀ x ∈ t, x = k := by
      intro x hx
      exact hconst k (List.mem_cons_self k ks') x (by rw [hbt]; exact List.mem_cons_of_mem b hx)
    rw [List.flatMap_cons, hbt, hbk]
    show firstOccur (k :: (t ++ ks'.flatMap B)) = k :: ks'
    rw [firstOccur]
    congr 1
    have hfilt : (t ++ ks'.flatMap B).filter (fun x => x ≠ k) = ks'.flatMap B := by
      rw [List.filter_append]
      have h1 : t.filter (fun x => x ≠ k) = [] := by
        rw [List.filter_eq_nil_iff]
        intro x hx
        simp [ht x hx]
      have h2 : (ks'.flatMap B).filter (fun x => x ≠ k) = ks'.flatMap B := by
        rw [List.filter_eq_self]
        intro x hx
        simpa using hrest x hx
      rw [h1, h2, List.nil_append]
    rw [hfilt]
    exact ih (List.nodup_cons.mp hnd).2 (fun a ha => hne a (List.mem_cons_of_mem k ha))
      (fun a ha => hconst a (List.mem_cons_of_mem k ha))

lemma flatMap_blocks_filter {κ β : Type} [DecidableEq κ] (ks : List κ)
    (G : κ → List β) (st : β → κ) (hnd : ks.Nodup)
    (hst : ∀ k ∈ ks, ∀ b ∈ G k, st b = k) (s : κ) :
    (ks.flatMap G).filter (fun b => st b = s) = if s ∈ ks then G s else [] := by
  induction ks with
  | nil => simp
  | cons k ks' ih =>
    rw [List.flatMap_cons, List.filter_append]
    by_cases hsk : s = k
    · subst hsk
      have h1 : (G s).filter (fun b => st b = s) = G s := by
        rw [List.filter_eq_self]
        intro b hb
        simp [hst s (List.mem_cons_self s ks') b hb]
      have h2 : (ks'.flatMap G).filter (fun b => st b = s) = [] := by
        rw [List.filter_eq_nil_iff]
        intro b hb
        rw [List.mem_flatMap] at hb
        obtain ⟨k', hk', hbk'⟩ := hb
        have := hst k' (List.mem_cons_of_mem s hk') b hbk'
        simp only [this, decide_eq_true_eq]
        exact fun hxeq => (List.nodup_cons.mp hnd).1 (hxeq ▸ hk')
      simp [h1, h2]
    · have h1 : (G k).filter (fun b => st b = s) = [] := by
        rw [List.filter_eq_nil_iff]
        intro b hb
        have := hst k (List.mem_cons_self k ks') b hb
        simp only [this, decide_eq_true_eq]
        exact fun h => hsk h.symm
      rw [h1, List.nil_append,
        ih (List.nodup_cons.mp hnd).2 (fun a ha => hst a (List.mem_cons_of_mem k ha))]
      simp [List.mem_cons, hsk]

lemma mem_partitionRows {df : List Row} {s : String} {r : Row} :
    r ∈ partitionRows df s ↔ r ∈ df ∧ r.stock = s := by
  simp [partitionRows, List.mem_filter]

lemma mem_sortedPartition {df : List Row} {s : String} {r : Row} :
    r ∈ sortedPartition df s ↔ r ∈ df ∧ r.stock = s := by
  rw [sortedPartition, List.mem_insertionSort, mem_partitionRows]

lemma mem_symbolsInOrder {df : List Row} {s : String} :
    s ∈ symbolsInOrder df ↔ ∃ r ∈ df, r.stock = s := by
  rw [symbolsInOrder, mem_firstOccur]
  simp [eq_comm]

lemma sortedPartition_ne_nil {df : List Row} {s : String}
    (h : s ∈ symbolsInOrder df) : sortedPartition df s ≠ [] := by
  rw [mem_symbolsInOrder] at h
  obtain ⟨r, hr, hs⟩ := h
  have : r ∈ sortedPartition df s := mem_sortedPartition.mpr ⟨hr, hs⟩
  exact List.ne_nil_of_mem this

lemma sortedPartition_sorted (df : List Row) (s : String) :
    (sortedPartition df s).Sorted rowLe :=
  List.sorted_insertionSort rowLe (partitionRows df s)

/-! ### Helpers for `mapIdx`-built window columns -/

lemma mem_mapIdx_iff {α β : Type} {l : List α} {f : ℕ → α → β} {b : β} :
    b ∈ l.mapIdx f ↔ ∃ i : Fin l.length, f i.1 (l.get i) = b := by
  rw [List.mapIdx_eq_ofFn, List.mem_ofFn]
  exact Iff.rfl

lemma head?_mapIdx {α β : Type} (l : List α) (f : ℕ → α → β) :
    (l.mapIdx f).head? = l.head?.map (f 0) := by
  cases l with
  | nil => rfl
  | cons a t => rw [List.mapIdx_cons]; rfl

lemma mapIdx_map_eq_self {α β : Type} (p : List α) (F : ℕ → α → β) (g : β → α)
    (h : ∀ i a, g (F i a) = a) : (p.mapIdx F).map g = p := by
  rw [List.mapIdx_eq_enum_map, List.map_map]
  have hfe : g ∘ Function.uncurry F = Prod.snd := funext (fun x => h x.1 x.2)
  rw [hfe, List.enum_map_snd]

lemma toRow_mem_of_mem_windowPartRows {p : List Row} {d : DRow}
    (h : d ∈ windowPartRows p) : d.toRow ∈ p := by
  rw [windowPartRows, mem_mapIdx_iff] at h
  obtain ⟨i, hi⟩ := h
  rw [← hi]
  exact List.get_mem p i.1 i.2

lemma windowAgg_filter_stock (df : List Row) (s : String) :
    (windowAgg df).filter (fun d => d.toRow.stock = s)
      = if s ∈ symbolsInOrder df then windowPartRows (sortedPartition df s) else [] := by
  refine flatMap_blocks_filter (symbolsInOrder df)
    (fun k => windowPartRows (sortedPartition df k)) (fun d => d.toRow.stock)
    (nodup_firstOccur _) ?_ s
  intro k _hk b hb
  exact (mem_sortedPartition.mp (toRow_mem_of_mem_windowPartRows hb)).2

/-- The shape of the `Daily_Return` column value given the `Prev_Close`
value `o` and the current close `c`. -/
lemma bind_divUndef (o : Option ℚ) (c : ℚ) :
    (o.bind (fun pc => divUndef (c - pc) pc) = none ↔ o = none ∨ o = some 0) ∧
    (∀ p, o = some p → p ≠ 0 →
      o.bind (fun pc => divUndef (c - pc) pc) = some ((c - p) / p)) := by
  cases o with
  | none => simp
  | some pc =>
    constructor
    · by_cases hpc : pc = 0 <;> simp [divUndef, hpc]
    · rintro p hp hne
      rw [Option.some.injEq] at hp
      subst hp
      simp [divUndef, hne]

lemma windowAgg_daily_return_rule (df : List Row) :
    ∀ e ∈ windowAgg df,
      (e.dailyReturn = none ↔ e.prevClose = none ∨ e.prevClose = some 0) ∧
      (∀ q, e.prevClose = some q → q ≠ 0 →
        e.dailyReturn = some ((e.toRow.close - q) / q)) := by
  intro e he
  rw [windowAgg, List.mem_flatMap] at he
  obtain ⟨s', _hs', he⟩ := he
  rw [windowPartRows, mem_mapIdx_iff] at he
  obtain ⟨i, hi⟩ := he
  subst hi
  exact bind_divUndef _ _

/-- **C4.** In the Window Aggregator's output, the first row of every
symbol's chronologically sorted partition has `Prev_Close = null` and
`Daily_Return` undefined; and on every row `Daily_Return` is
null/undefined exactly when `Prev_Close` is null or zero, and otherwise
equals `(Close - Prev_Close) / Prev_Close`. -/
theorem c4_first_row_null_and_daily_return_rule (df : List Row) (s : String) (dr : DRow)
    (h : ((windowAgg df).filter (fun d => d.toRow.stock = s)).head? = some dr) :
    dr.prevClose = none ∧ dr.dailyReturn = none ∧
    ∀ e ∈ windowAgg df,
      (e.dailyReturn = none ↔ e.prevClose = none ∨ e.prevClose = some 0) ∧
      (∀ q, e.prevClose = some q → q ≠ 0 →
        e.dailyReturn = some ((e.toRow.close - q) / q)) := by
  rw [windowAgg_filter_stock] at h
  by_cases hs : s ∈ symbolsInOrder df
  · rw [if_pos hs] at h
    obtain ⟨r0, rest, hcons⟩ := List.exists_cons_of_ne_nil (sortedPartition_ne_nil hs)
    rw [hcons, windowPartRows, List.mapIdx_cons] at h
    simp only [List.head?_cons, Option.some.injEq] at h
    subst h
    exact ⟨rfl, rfl, windowAgg_daily_return_rule df⟩
  · rw [if_neg hs] at h
    cases h

/-- Two-row single-symbol dataset used to witness the window-column claims. -/
def rowW0 : Row :=
  { date := 0, adjClose := 10, close := 10, high := 10, low := 10,
    openPrice := 10, volume := 1, stock := "A" }

/-- Second row of the witness dataset. -/
def rowW1 : Row :=
  { date := 1, adjClose := 12, close := 12, high := 12, low := 12,
    openPrice := 12, volume := 1, stock := "A" }

theorem c4_first_row_null_and_daily_return_rule_witness :
    (((windowAgg [rowW0, rowW1]).filter (fun d => d.toRow.stock = "A")).head?
      = some { toRow := rowW0, prevClose := none, dailyReturn := none, movingAvg5 := some 10 }) ∧
    ((none : Option ℚ) = none ∧ (none : Option ℚ) = none ∧
     ∀ e ∈ windowAgg [rowW0, rowW1],
       (e.dailyReturn = none ↔ e.prevClose = none ∨ e.prevClose = some 0) ∧
       (∀ q, e.prevClose = some q → q ≠ 0 →
         e.dailyReturn = some ((e.toRow.close - q) / q))) := by
  have h : ((windowAgg [rowW0, rowW1]).filter (fun d => d.toRow.stock = "A")).head?
      = some { toRow := rowW0, prevClose := none, dailyReturn := none, movingAvg5 := some 10 } := by
    norm_num [windowAgg, symbolsInOrder, firstOccur, sortedPartition, partitionRows,
      windowPartRows, frameAvg, rowW0, rowW1, List.insertionSort, List.orderedInsert, rowLe]
  exact ⟨h, c4_first_row_null_and_daily_return_rule [rowW0, rowW1] "A" _ h⟩

/-! ### C2: determinism -/

/-- **C2.** Every engine operation is a pure function of its input dataset
and parameters: equal inputs give equal results, for
`calculate_return_rate`, `best_return_rate`, `calculate_moving_average`,
`calculate_correlation_between_stocks` and the window aggregator. -/
theorem c2_engine_operations_deterministic (df1 df2 : List Row)
    (sd1 sd2 p1 p2 : String) (column : Row → ℚ) (s1 s2 : String) (n : Nat)
    (hdf : df1 = df2) (hsd : sd1 = sd2) (hp : p1 = p2) :
    calculate_return_rate df1 = calculate_return_rate df2 ∧
    best_return_rate df1 sd1 p1 = best_return_rate df2 sd2 p2 ∧
    calculate_moving_average df1 column n = calculate_moving_average df2 column n ∧
    calculate_correlation_between_stocks df1 s1 s2 column
      = calculate_correlation_between_stocks df2 s1 s2 column ∧
    windowAgg df1 = windowAgg df2 := by
  subst hdf; subst hsd; subst hp
  exact ⟨rfl, rfl, rfl, rfl, rfl⟩

theorem c2_engine_operations_deterministic_witness :
    calculate_return_rate [rowW0, rowW1] = calculate_return_rate [rowW0, rowW1] ∧
    best_return_rate [rowW0, rowW1] "2020-01-01" "month"
      = best_return_rate [rowW0, rowW1] "2020-01-01" "month" ∧
    calculate_moving_average [rowW0, rowW1] Row.close 5
      = calculate_moving_average [rowW0, rowW1] Row.close 5 ∧
    calculate_correlation_between_stocks [rowW0, rowW1] "A" "B" Row.close
      = calculate_correlation_between_stocks [rowW0, rowW1] "A" "B" Row.close ∧
    windowAgg [rowW0, rowW1] = windowAgg [rowW0, rowW1] :=
  c2_engine_operations_deterministic [rowW0, rowW1] [rowW0, rowW1]
    "2020-01-01" "2020-01-01" "month" "month" Row.close "A" "B" 5 rfl rfl rfl

/-! ### C6: invalid period granularity -/

/-- **C6.** `best_return_rate` fails on every period other than `"month"`
and `"year"`: it always returns an error (never a silently substituted
default result), and whenever the start date parses the error is the
invalid-period `ValueError`. -/
theorem c6_invalid_period_fails (df : List Row) (start_date period : String)
    (h1 : period ≠ "month") (h2 : period ≠ "year") :
    (∃ e, best_return_rate df start_date period = .error e) ∧
    (∀ y m, parseStartDate start_date = some (y, m) →
      best_return_rate df start_date period = .error .invalidPeriod) := by
  constructor
  · cases hp : parseStartDate start_date with
    | none => exact ⟨.parseError, by rw [best_return_rate, hp]⟩
    | some ym =>
      obtain ⟨sy, sm⟩ := ym
      exact ⟨.invalidPeriod, by rw [best_return_rate, hp]; dsimp only; rw [if_neg h1, if_neg h2]⟩
  · intro y m hym
    rw [best_return_rate, hym]
    dsimp only
    rw [if_neg h1, if_neg h2]

theorem c6_invalid_period_fails_witness :
    ("quarter" ≠ "month") ∧ ("quarter" ≠ "year") ∧
    ((∃ e, best_return_rate [] "2020-01-01" "quarter" = .error e) ∧
     (∀ y m, parseStartDate "2020-01-01" = some (y, m) →
       best_return_rate [] "2020-01-01" "quarter" = .error .invalidPeriod)) :=
  ⟨by decide, by decide,
   c6_invalid_period_fails [] "2020-01-01" "quarter" (by decide) (by decide)⟩

/-! ### C10: only the period component of `start_date` matters -/

/-- **C10.** `best_return_rate` ignores the day component of `start_date`:
two parsable start dates with the same year give the same result for
`period = "year"`, with the same year and month the same result for
`period = "month"`; and a start date that does not split into three
dash-separated integers makes the operation fail (with the parse error,
before any filtering, whatever the dataset and period are). -/
theorem c10_day_component_ignored (df : List Row) (d1 d2 period : String) :
    (parseStartDate d1 = none → best_return_rate df d1 period = .error .parseError) ∧
    (∀ y m1 m2, parseStartDate d1 = some (y, m1) → parseStartDate d2 = some (y, m2) →
      (period = "year" → best_return_rate df d1 period = best_return_rate df d2 period) ∧
      (period = "month" → m1 = m2 →
        best_return_rate df d1 period = best_return_rate df d2 period)) := by
  constructor
  · intro h
    rw [best_return_rate, h]
  · intro y m1 m2 h1 h2
    constructor
    · intro hp
      subst hp
      rw [best_return_rate, h1, best_return_rate, h2]
      dsimp only
      rw [if_neg (by decide : ¬("year" = "month")), if_neg (by decide : ¬("year" = "month"))]
    · intro hp hm
      subst hp
      subst hm
      rw [best_return_rate, h1, best_return_rate, h2]

theorem c10_day_component_ignored_witness :
    (parseStartDate "2020-1x-05" = none ∧
      best_return_rate [] "2020-1x-05" "month" = .error .parseError) ∧
    (parseStartDate "2020-01-05" = some (2020, 1) ∧
      parseStartDate "2020-01-20" = some (2020, 1) ∧
      best_return_rate [rowW0, rowW1] "2020-01-05" "month"
        = best_return_rate [rowW0, rowW1] "2020-01-20" "month") :=
  ⟨⟨by decide, (c10_day_component_ignored [] "2020-1x-05" "2020-1x-05" "month").1 (by decide)⟩,
   ⟨by decide, by decide,
    ((c10_day_component_ignored [rowW0, rowW1] "2020-01-05" "2020-01-20" "month").2
      2020 1 1 (by decide) (by decide)).2 rfl rfl⟩⟩

/-! ### C9: `dropna` also drops rows that are null only in `Adj Close` -/

lemma toRow?_adjClose_none {r : RawRow} (h : r.adjClose = none) : toRow? r = none := by
  cases hd : r.date <;> simp [toRow?, hd, h]

lemma toRow?_fields {r : RawRow} {out : Row} (h : toRow? r = some out) :
    r.date = some out.date ∧ r.adjClose = some out.adjClose ∧
    r.close = some out.close ∧ r.high = some out.high ∧ r.low = some out.low ∧
    r.openPrice = some out.openPrice ∧ r.volume = some out.volume ∧ r.stock = out.stock := by
  simp only [toRow?, bind, Option.bind_eq_some, pure, Option.some.injEq] at h
  obtain ⟨dt, hdt, ac, hac, c, hc, hi, hhi, lo, hlo, o, ho, v, hv, hout⟩ := h
  subst hout
  exact ⟨hdt, hac, hc, hhi, hlo, ho, hv, rfl⟩

/-- **C9.** The Dataset Builder's `dropna()` removes any row with a null in
any schema column: appending a row whose `Adj Close` is null — however
complete its required fields are — leaves the built dataset unchanged, and
every row of the built dataset comes from an input row all of whose
columns are non-null. -/
theorem c9_dropna_includes_adjclose (raw : List RawRow) (r : RawRow)
    (h : r.adjClose = none) :
    buildDataset (raw ++ [r]) = buildDataset raw ∧
    ∀ out ∈ buildDataset raw, ∃ rr ∈ raw,
      rr.date = some out.date ∧ rr.adjClose = some out.adjClose ∧
      rr.close = some out.close ∧ rr.high = some out.high ∧ rr.low = some out.low ∧
      rr.openPrice = some out.openPrice ∧ rr.volume = some out.volume ∧
      rr.stock = out.stock := by
  constructor
  · rw [buildDataset, buildDataset, List.filterMap_append]
    simp [toRow?_adjClose_none h]
  · intro out hout
    rw [buildDataset, List.mem_filterMap] at hout
    obtain ⟨rr, hrr, hsome⟩ := hout
    exact ⟨rr, hrr, toRow?_fields hsome⟩

/-- A complete raw row for the C9 witness. -/
def rawW0 : RawRow :=
  { date := some 0, adjClose := some 10, close := some 10, high := some 10,
    low := some 10, openPrice := some 10, volume := some 1, stock := "A" }

/-- A raw row complete in every required field but null in `Adj Close`. -/
def rawW1 : RawRow :=
  { date := some 1, adjClose := none, close := some 12, high := some 12,
    low := some 12, openPrice := some 12, volume := some 1, stock := "A" }

theorem c9_dropna_includes_adjclose_witness :
    (rawW1.adjClose = none) ∧
    (buildDataset ([rawW0] ++ [rawW1]) = buildDataset [rawW0] ∧
     ∀ out ∈ buildDataset [rawW0], ∃ rr ∈ [rawW0],
       rr.date = some out.date ∧ rr.adjClose = some out.adjClose ∧
       rr.close = some out.close ∧ rr.high = some out.high ∧ rr.low = some out.low ∧
       rr.openPrice = some out.openPrice ∧ rr.volume = some out.volume ∧
       rr.stock = out.stock) :=
  ⟨rfl, c9_dropna_includes_adjclose [rawW0] rawW1 rfl⟩

/-! ### C5: moving averages are trailing means -/

lemma getElem?_mapIdx {α β : Type} (l : List α) (f : ℕ → α → β) (i : ℕ) :
    (l.mapIdx f)[i]? = (l[i]?).map (f i) := by
  by_cases h : i < l.length
  · rw [List.getElem?_eq_getElem (by simpa [List.length_mapIdx] using h),
      List.getElem?_eq_getElem h]
    have := List.get_mapIdx l f i h
    simpa [List.get_eq_getElem] using this
  · rw [List.getElem?_eq_none (by simpa [List.length_mapIdx] using Nat.le_of_not_lt h),
      List.getElem?_eq_none (Nat.le_of_not_lt h)]
    rfl

lemma fst_mem_of_mem_mavg_block {df : List Row} {column : Row → ℚ} {n : Nat} {k : String}
    {b : Row × Option ℚ}
    (hb : b ∈ (sortedPartition df k).mapIdx
      (fun i r => (r, frameAvg column n (sortedPartition df k) i))) :
    b.1 ∈ sortedPartition df k := by
  rw [mem_mapIdx_iff] at hb
  obtain ⟨i, hi⟩ := hb
  rw [← hi]
  exact List.get_mem _ i.1 i.2

lemma calculate_moving_average_filter_stock (df : List Row) (column : Row → ℚ)
    (n : Nat) (s : String) :
    (calculate_moving_average df column n).filter (fun x => x.1.stock = s)
      = if s ∈ symbolsInOrder df then
          (sortedPartition df s).mapIdx
            (fun i r => (r, frameAvg column n (sortedPartition df s) i))
        else [] := by
  refine flatMap_blocks_filter (symbolsInOrder df)
    (fun k => (sortedPartition df k).mapIdx
      (fun i r => (r, frameAvg column n (sortedPartition df k) i)))
    (fun x => x.1.stock) (nodup_firstOccur _) ?_ s
  intro k _hk b hb
  exact (mem_sortedPartition.mp (fst_mem_of_mem_mavg_block hb)).2

/-- **C5.** For every positive window length `n`, the moving-average value
attached to the row at position `i` of a symbol's date-ordered partition
is the arithmetic mean of the field over the trailing window — the suffix
of the first `i + 1` partition rows of length `min (i + 1) n`, so only the
rows that exist, never forward-looking ones and with no zero padding —
and for `n = 1` it is the field's own value. -/
theorem c5_moving_average_trailing_mean (df : List Row) (column : Row → ℚ)
    (n : Nat) (hn : 0 < n) (s : String) (i : Nat) (r : Row) (v : Option ℚ)
    (h : ((calculate_moving_average df column n).filter (fun x => x.1.stock = s))[i]?
          = some (r, v)) :
    (sortedPartition df s)[i]? = some r ∧
    (((sortedPartition df s).take (i + 1)).drop (i + 1 - n)).length = min (i + 1) n ∧
    ((sortedPartition df s).take (i + 1)).drop (i + 1 - n)
      <:+ (sortedPartition df s).take (i + 1) ∧
    v = some (((((sortedPartition df s).take (i + 1)).drop (i + 1 - n)).map column).sum
          / (min (i + 1) n : ℕ)) ∧
    (n = 1 → v = some (column r)) := by
  rw [calculate_moving_average_filter_stock] at h
  by_cases hs : s ∈ symbolsInOrder df
  case neg => rw [if_neg hs] at h; cases h
  rw [if_pos hs, getElem?_mapIdx] at h
  set p := sortedPartition df s with hp
  cases hpi : p[i]? with
  | none => rw [hpi] at h; cases h
  | some r' =>
    rw [hpi] at h
    simp only [Option.map_some', Option.some.injEq, Prod.mk.injEq] at h
    obtain ⟨hr, hv⟩ := h
    subst hr
    have hlt : i < p.length := by
      rcases List.getElem?_eq_some.mp hpi with ⟨hl, _⟩
      exact hl
    have hwlen : ((p.take (i + 1)).drop (i + 1 - n)).length = min (i + 1) n := by
      rw [List.length_drop, List.length_take]
      omega
    have hwne : ¬ ((p.take (i + 1)).drop (i + 1 - n)).isEmpty := by
      rw [List.isEmpty_iff_length_eq_zero, hwlen]
      omega
    refine ⟨rfl, hwlen, List.drop_suffix _ _, ?_, ?_⟩
    · rw [← hv]
      simp only [frameAvg]
      rw [if_neg hwne]
      simp only [Option.some.injEq]
      rw [hwlen]
    · intro hn1
      subst hn1
      have hw1 : (p.take (i + 1)).drop (i + 1 - 1) = [p.get ⟨i, hlt⟩] := by
        have h1 : (p.take (i + 1)).drop i = (p.drop i).take 1 := Eq.symm (List.take_drop i 1 p)
        have hd : p.drop i = p[i] :: p.drop (i + 1) := List.drop_eq_getElem_cons hlt
        simp only [Nat.add_sub_cancel, h1]
        rw [hd, List.take_succ_cons, List.take_zero]
        simp [List.get_eq_getElem]
      rw [← hv]
      simp only [frameAvg]
      rw [if_neg hwne]
      rw [hw1]
      have hgr : p.get ⟨i, hlt⟩ = r' := by
        have : p[i]? = some (p.get ⟨i, hlt⟩) := by
          rw [List.getElem?_eq_getElem hlt]
          simp [List.get_eq_getElem]
        rw [hpi] at this
        simpa using this.symm
      rw [hgr]
      simp

theorem c5_moving_average_trailing_mean_witness :
    (0 < 1) ∧
    (((calculate_moving_average [rowW0, rowW1] Row.close 1).filter
        (fun x => x.1.stock = "A"))[1]? = some (rowW1, some 12)) ∧
    ((sortedPartition [rowW0, rowW1] "A")[1]? = some rowW1 ∧
     (((sortedPartition [rowW0, rowW1] "A").take (1 + 1)).drop (1 + 1 - 1)).length
        = min (1 + 1) 1 ∧
     ((sortedPartition [rowW0, rowW1] "A").take (1 + 1)).drop (1 + 1 - 1)
        <:+ (sortedPartition [rowW0, rowW1] "A").take (1 + 1) ∧
     (some 12 : Option ℚ) = some
        (((((sortedPartition [rowW0, rowW1] "A").take (1 + 1)).drop (1 + 1 - 1)).map
            Row.close).sum / (min (1 + 1) 1 : ℕ)) ∧
     (1 = 1 → (some 12 : Option ℚ) = some (Row.close rowW1))) := by
  have h : ((calculate_moving_average [rowW0, rowW1] Row.close 1).filter
      (fun x => x.1.stock = "A"))[1]? = some (rowW1, some 12) := by
    norm_num [calculate_moving_average, symbolsInOrder, firstOccur, sortedPartition,
      partitionRows, frameAvg, rowW0, rowW1, List.insertionSort, List.orderedInsert,
      rowLe, List.mapIdx_cons, List.mapIdx_nil]
  exact ⟨Nat.one_pos, h,
    c5_moving_average_trailing_mean [rowW0, rowW1] Row.close 1 Nat.one_pos "A" 1 rowW1
      (some 12) h⟩

/-! ### Sum machinery for the Correlation Engine -/

lemma sum_map_eq_finsum {α : Type} (l : List α) (f : α → ℚ) :
    (l.map f).sum = ∑ i : Fin l.length, f (l.get i) := by
  induction l with
  | nil => simp
  | cons a t ih =>
    rw [List.map_cons, List.sum_cons, ih]
    exact Eq.symm (@Fin.sum_univ_succ ℚ _ t.length (fun i => f ((a :: t).get i)))

lemma varFst_nonneg (l : List (ℚ × ℚ)) : 0 ≤ varFst l := by
  refine List.sum_nonneg ?_
  intro x hx
  rw [List.mem_map] at hx
  obtain ⟨p, _, hp⟩ := hx
  rw [← hp]
  positivity

lemma varSnd_nonneg (l : List (ℚ × ℚ)) : 0 ≤ varSnd l := by
  refine List.sum_nonneg ?_
  intro x hx
  rw [List.mem_map] at hx
  obtain ⟨p, _, hp⟩ := hx
  rw [← hp]
  positivity

/-- Cauchy–Schwarz for the co-moment sums: `ck ^ 2 ≤ xMk * yMk`. -/
lemma covSum_sq_le_varFst_mul_varSnd (l : List (ℚ × ℚ)) :
    covSum l ^ 2 ≤ varFst l * varSnd l := by
  rw [covSum, varFst, varSnd, sumBy, sumBy, sumBy,
    sum_map_eq_finsum, sum_map_eq_finsum, sum_map_eq_finsum]
  exact Finset.sum_mul_sq_le_sq_mul_sq Finset.univ
    (fun i => (l.get i).1 - meanFst l) (fun i => (l.get i).2 - meanSnd l)

/-- A sample of fewer than two points has zero variance. -/
lemma varFst_eq_zero_of_short {l : List (ℚ × ℚ)} (h : l.length < 2) :
    varFst l = 0 := by
  match l, h with
  | [], _ => rfl
  | [p], _ => simp [varFst, sumBy, meanFst]

/-! ### C3: correlation is a bounded scalar or the distinguished NaN -/

/-- **C3.** `calculate_correlation_between_stocks` yields the distinguished
undefined value (Spark's `NaN`, never a scalar and in particular never a
scalar `0`) exactly when the date-aligned inner-joined sample has fewer
than two points or a zero-variance series, and otherwise a single scalar
in `[-1, 1]`: the scalar is `cov / √q` with `0 < q` and `cov ^ 2 ≤ q`. -/
theorem c3_correlation_bounded_or_undefined (df : List Row) (s1 s2 : String)
    (column : Row → ℚ) :
    (calculate_correlation_between_stocks df s1 s2 column = .nan ↔
      (joinedPairs df s1 s2 column).length < 2 ∨
      varFst (joinedPairs df s1 s2 column) = 0 ∨
      varSnd (joinedPairs df s1 s2 column) = 0) ∧
    (∀ c q, calculate_correlation_between_stocks df s1 s2 column = .val c q →
      0 < q ∧ c ^ 2 ≤ q) ∧
    ((joinedPairs df s1 s2 column).length < 2 ∨
        varFst (joinedPairs df s1 s2 column) = 0 ∨
        varSnd (joinedPairs df s1 s2 column) = 0 →
      ∀ c q, calculate_correlation_between_stocks df s1 s2 column ≠ .val c q) := by
  have hnan : calculate_correlation_between_stocks df s1 s2 column = .nan ↔
      (joinedPairs df s1 s2 column).length < 2 ∨
      varFst (joinedPairs df s1 s2 column) = 0 ∨
      varSnd (joinedPairs df s1 s2 column) = 0 := by
    rw [calculate_correlation_between_stocks, corrOfPairs]
    constructor
    · intro h
      by_cases hc : varFst (joinedPairs df s1 s2 column) = 0 ∨
          varSnd (joinedPairs df s1 s2 column) = 0
      · exact Or.inr hc
      · rw [if_neg hc] at h
        cases h
    · intro h
      rcases h with h | h
      · rw [if_pos (Or.inl (varFst_eq_zero_of_short h))]
      · rw [if_pos h]
  refine ⟨hnan, ?_, ?_⟩
  · intro c q h
    rw [calculate_correlation_between_stocks, corrOfPairs] at h
    by_cases hc : varFst (joinedPairs df s1 s2 column) = 0 ∨
        varSnd (joinedPairs df s1 s2 column) = 0
    · rw [if_pos hc] at h
      cases h
    · rw [if_neg hc] at h
      push_neg at hc
      injection h with hcov hq
      have h1 : 0 < varFst (joinedPairs df s1 s2 column) :=
        lt_of_le_of_ne (varFst_nonneg _) (Ne.symm hc.1)
      have h2 : 0 < varSnd (joinedPairs df s1 s2 column) :=
        lt_of_le_of_ne (varSnd_nonneg _) (Ne.symm hc.2)
      constructor
      · rw [← hq]
        exact mul_pos h1 h2
      · rw [← hq, ← hcov]
        exact covSum_sq_le_varFst_mul_varSnd _
  · intro hdeg c q hval
    rw [hnan.mpr hdeg] at hval
    cases hval

/-- Second symbol's rows for the correlation witness. -/
def rowW2 : Row :=
  { date := 0, adjClose := 5, close := 5, high := 5, low := 5,
    openPrice := 5, volume := 1, stock := "B" }

/-- Second row of the second symbol for the correlation witness. -/
def rowW3 : Row :=
  { date := 1, adjClose := 6, close := 6, high := 6, low := 6,
    openPrice := 6, volume := 1, stock := "B" }

theorem c3_correlation_bounded_or_undefined_witness :
    (calculate_correlation_between_stocks [rowW0, rowW1, rowW2, rowW3] "A" "B" Row.close
      = CorrValue.val 1 1) ∧ (0 < (1 : ℚ) ∧ (1 : ℚ) ^ 2 ≤ 1) := by
  have hj : joinedPairs [rowW0, rowW1, rowW2, rowW3] "A" "B" Row.close = [(10, 5), (12, 6)] := by
    simp +decide [joinedPairs, innerJoinOnDate, stockSeries, rowW0, rowW1, rowW2, rowW3]
  have h : calculate_correlation_between_stocks [rowW0, rowW1, rowW2, rowW3] "A" "B" Row.close
      = CorrValue.val 1 1 := by
    rw [calculate_correlation_between_stocks, hj]
    norm_num [corrOfPairs, covSum, varFst, varSnd, meanFst, meanSnd, sumBy]
  exact ⟨h, (c3_correlation_bounded_or_undefined [rowW0, rowW1, rowW2, rowW3] "A" "B"
    Row.close).2.1 1 1 h⟩

/-! ### C7: correlation is symmetric in the two symbols -/

lemma sum_flatMap_rat {α : Type} (l : List α) (f : α → List ℚ) :
    (l.flatMap f).sum = (l.map (fun a => (f a).sum)).sum := by
  induction l with
  | nil => rfl
  | cons a t ih =>
    rw [List.flatMap_cons, List.sum_append, List.map_cons, List.sum_cons, ih]

lemma sum_filter_eq_sum_ite {α : Type} (l : List α) (p : α → Bool) (f : α → ℚ) :
    ((l.filter p).map f).sum = (l.map (fun x => if p x then f x else 0)).sum := by
  induction l with
  | nil => rfl
  | cons a t ih =>
    rw [List.filter_cons]
    cases hp : p a <;> simp [hp, ih]

lemma sum_map_one {α : Type} (l : List α) : (l.map (fun _ => (1 : ℚ))).sum = l.length := by
  induction l with
  | nil => rfl
  | cons a t ih => simp [ih, add_comm]

lemma sum_map_swap {α β : Type} (l1 : List α) (l2 : List β) (h : α → β → ℚ) :
    (l1.map (fun a => (l2.map (h a)).sum)).sum
      = (l2.map (fun b => (l1.map (fun a => h a b)).sum)).sum := by
  induction l1 with
  | nil => simp
  | cons a t ih =>
    simp only [List.map_cons, List.sum_cons, ih, List.sum_map_add]

lemma innerJoin_map_sum (l1 l2 : List (Date × ℚ)) (F : ℚ × ℚ → ℚ) :
    ((innerJoinOnDate l1 l2).map F).sum
      = (l1.map (fun a =>
          (l2.map (fun b => if b.1 = a.1 then F (a.2, b.2) else 0)).sum)).sum := by
  rw [innerJoinOnDate, List.map_flatMap, sum_flatMap_rat]
  refine congrArg List.sum (List.map_eq_map_iff.mpr ?_)
  intro a _
  rw [List.map_map]
  have hfi := sum_filter_eq_sum_ite l2 (fun b => decide (b.1 = a.1)) (fun b => F (a.2, b.2))
  simpa using hfi

/-- Every sum over the inner join is a sum over the join driven from the
other side, with the pair components swapped (the dates are merely matched
for equality, which is symmetric). -/
lemma innerJoin_sum_swap (l1 l2 : List (Date × ℚ)) (F : ℚ × ℚ → ℚ) :
    ((innerJoinOnDate l1 l2).map F).sum
      = ((innerJoinOnDate l2 l1).map (fun p => F (p.2, p.1))).sum := by
  rw [innerJoin_map_sum l1 l2 F, innerJoin_map_sum l2 l1 (fun p => F (p.2, p.1)),
    sum_map_swap l1 l2 (fun a b => if b.1 = a.1 then F (a.2, b.2) else 0)]
  refine congrArg List.sum (List.map_eq_map_iff.mpr ?_)
  intro b _
  refine congrArg List.sum (List.map_eq_map_iff.mpr ?_)
  intro a _
  by_cases hab : a.1 = b.1
  · rw [if_pos hab, if_pos hab.symm]
  · rw [if_neg hab, if_neg (fun hh => hab hh.symm)]

lemma innerJoin_length_swap (l1 l2 : List (Date × ℚ)) :
    (innerJoinOnDate l1 l2).length = (innerJoinOnDate l2 l1).length := by
  have h := innerJoin_sum_swap l1 l2 (fun _ => (1 : ℚ))
  rw [sum_map_one, sum_map_one] at h
  exact_mod_cast h

lemma meanFst_swap (l1 l2 : List (Date × ℚ)) :
    meanFst (innerJoinOnDate l2 l1) = meanSnd (innerJoinOnDate l1 l2) := by
  rw [meanFst, meanSnd, innerJoin_length_swap l2 l1]
  congr 1
  rw [sumBy, sumBy]
  have h := innerJoin_sum_swap l2 l1 (fun p => p.1)
  simpa using h

lemma meanSnd_swap (l1 l2 : List (Date × ℚ)) :
    meanSnd (innerJoinOnDate l2 l1) = meanFst (innerJoinOnDate l1 l2) := by
  rw [meanSnd, meanFst, innerJoin_length_swap l2 l1]
  congr 1
  rw [sumBy, sumBy]
  have h := innerJoin_sum_swap l2 l1 (fun p => p.2)
  simpa using h

lemma covSum_swap (l1 l2 : List (Date × ℚ)) :
    covSum (innerJoinOnDate l2 l1) = covSum (innerJoinOnDate l1 l2) := by
  rw [covSum, covSum, sumBy, sumBy]
  have h := innerJoin_sum_swap l2 l1
    (fun p => (p.1 - meanFst (innerJoinOnDate l2 l1)) * (p.2 - meanSnd (innerJoinOnDate l2 l1)))
  rw [h]
  refine congrArg List.sum (List.map_eq_map_iff.mpr ?_)
  intro p _
  dsimp only
  rw [meanFst_swap l1 l2, meanSnd_swap l1 l2]
  ring

lemma varFst_swap (l1 l2 : List (Date × ℚ)) :
    varFst (innerJoinOnDate l2 l1) = varSnd (innerJoinOnDate l1 l2) := by
  rw [varFst, varSnd, sumBy, sumBy]
  have h := innerJoin_sum_swap l2 l1 (fun p => (p.1 - meanFst (innerJoinOnDate l2 l1)) ^ 2)
  rw [h]
  refine congrArg List.sum (List.map_eq_map_iff.mpr ?_)
  intro p _
  dsimp only
  rw [meanFst_swap l1 l2]

lemma varSnd_swap (l1 l2 : List (Date × ℚ)) :
    varSnd (innerJoinOnDate l2 l1) = varFst (innerJoinOnDate l1 l2) := by
  rw [varSnd, varFst, sumBy, sumBy]
  have h := innerJoin_sum_swap l2 l1 (fun p => (p.2 - meanSnd (innerJoinOnDate l2 l1)) ^ 2)
  rw [h]
  refine congrArg List.sum (List.map_eq_map_iff.mpr ?_)
  intro p _
  dsimp only
  rw [meanSnd_swap l1 l2]

/-- **C7.** Symbol-pair correlation is symmetric: swapping the two symbol
arguments of `calculate_correlation_between_stocks` never changes the
result, for every dataset and numeric field. -/
theorem c7_correlation_symmetric (df : List Row) (s1 s2 : String) (column : Row → ℚ) :
    calculate_correlation_between_stocks df s1 s2 column
      = calculate_correlation_between_stocks df s2 s1 column := by
  rw [calculate_correlation_between_stocks, calculate_correlation_between_stocks,
    joinedPairs, joinedPairs]
  rw [corrOfPairs, corrOfPairs]
  rw [varFst_swap (stockSeries df s1 column) (stockSeries df s2 column),
    varSnd_swap (stockSeries df s1 column) (stockSeries df s2 column),
    covSum_swap (stockSeries df s1 column) (stockSeries df s2 column)]
  exact if_congr or_comm rfl (by rw [mul_comm])

/-! ### C1: period aggregates take chronological first/last closes -/

lemma pairwise_le_getLast {l : List Row} (hs : l.Pairwise rowLe) (hne : l ≠ []) :
    ∀ r ∈ l, r.date ≤ (l.getLast hne).date := by
  induction l with
  | nil => intro r hr; cases hr
  | cons a t ih =>
    intro r hr
    cases t with
    | nil =>
      have : r = a := List.mem_singleton.mp hr
      subst this
      exact le_refl _
    | cons b t' =>
      rw [List.getLast_cons (List.cons_ne_nil b t')]
      rcases List.mem_cons.mp hr with hr | hr
      · subst hr
        exact (List.pairwise_cons.mp hs).1 _ (List.getLast_mem (List.cons_ne_nil b t'))
      · exact ih (List.pairwise_cons.mp hs).2 (List.cons_ne_nil b t') _ hr

lemma pairwise_head_le {a : Row} {t : List Row} (hs : (a :: t).Pairwise rowLe) :
    ∀ r ∈ a :: t, a.date ≤ r.date := by
  intro r hr
  rcases List.mem_cons.mp hr with hr | hr
  · subst hr
    exact le_refl _
  · exact (List.pairwise_cons.mp hs).1 _ hr

/-- When the grouping key refines the symbol (every key determines its
symbol), per-symbol chronological order of the dataset makes every key
group chronologically ordered in encounter order. -/
lemma key_filter_pairwise {κ : Type} [DecidableEq κ] (key : Row → κ) (sOf : κ → String)
    (hk : ∀ r, sOf (key r) = r.stock) (df : List Row) (hs : perSymbolSorted df) (k : κ) :
    (df.filter (fun r => key r = k)).Pairwise rowLe := by
  cases hfil : df.filter (fun r => key r = k) with
  | nil => simp
  | cons r rs =>
    have hrmem : r ∈ df ∧ key r = k := by
      have : r ∈ df.filter (fun r => key r = k) := by
        rw [hfil]; exact List.mem_cons_self r rs
      simpa using this
    have hsmem : sOf k ∈ df.map (fun r => r.stock) := by
      rw [List.mem_map]
      exact ⟨r, hrmem.1, by rw [← hrmem.2, hk]⟩
    have hsort := hs (sOf k) hsmem
    have hpw := List.pairwise_map.mp hsort
    have hsub : List.Sublist (df.filter (fun r => decide (key r = k)))
        (df.filter (fun r => decide (r.stock = sOf k))) := by
      refine List.monotone_filter_right df ?_
      intro a ha
      simp only [decide_eq_true_eq] at ha ⊢
      rw [← ha, hk]
    rw [← hfil]
    exact hpw.sublist hsub

/-- The property C1 asserts of one period-aggregate entry `e`: the group of
`e`'s key holds the first and last close in chronological encounter order
(the group's first row is date-minimal, its last date-maximal) and the
return rate is `(last - first) / first * 100`, undefined on a zero first
close. -/
def firstLastSpec {κ : Type} [DecidableEq κ] (key : Row → κ) (df : List Row)
    (e : κ × ℚ × ℚ × Option ℚ) : Prop :=
  ∃ rf rl, (df.filter (fun r => key r = e.1)).head? = some rf ∧
    (df.filter (fun r => key r = e.1)).getLast? = some rl ∧
    e.2.1 = rf.close ∧ e.2.2.1 = rl.close ∧
    (∀ r ∈ df.filter (fun r => key r = e.1), rf.date ≤ r.date ∧ r.date ≤ rl.date) ∧
    (e.2.1 ≠ 0 → e.2.2.2 = some ((e.2.2.1 - e.2.1) / e.2.1 * 100)) ∧
    (e.2.1 = 0 → e.2.2.2 = none)

lemma withReturnRate_groupFirstLast_spec {κ : Type} [DecidableEq κ] (key : Row → κ)
    (df : List Row) (hsorted : ∀ k, (df.filter (fun r => key r = k)).Pairwise rowLe) :
    ∀ e ∈ withReturnRate (groupFirstLast key df), firstLastSpec key df e := by
  intro e he
  rw [withReturnRate, List.mem_map] at he
  obtain ⟨⟨k, f, la⟩, hmem, he⟩ := he
  subst he
  rw [groupFirstLast, List.mem_filterMap] at hmem
  obtain ⟨k', _hk', hmatch⟩ := hmem
  cases hfil : df.filter (fun r => key r = k') with
  | nil => rw [hfil] at hmatch; cases hmatch
  | cons r rs =>
    rw [hfil] at hmatch
    simp only [Option.some.injEq, Prod.mk.injEq] at hmatch
    obtain ⟨hkk, hf, hla⟩ := hmatch
    subst hkk
    subst hf
    subst hla
    have hpw : (r :: rs).Pairwise rowLe := by
      rw [← hfil]; exact hsorted k'
    refine ⟨r, (r :: rs).getLast (List.cons_ne_nil r rs), ?_, ?_, rfl, rfl, ?_, ?_, ?_⟩
    · rw [hfil]; rfl
    · rw [hfil]
      exact List.getLast?_eq_getLast (r :: rs) (List.cons_ne_nil r rs)
    · intro x hx
      rw [hfil] at hx
      exact ⟨pairwise_head_le hpw x hx, pairwise_le_getLast hpw (List.cons_ne_nil r rs) x hx⟩
    · intro hf0
      dsimp only at hf0 ⊢
      simp [divUndef, hf0]
    · intro hf0
      dsimp only at hf0 ⊢
      simp [divUndef, hf0]

lemma pickBest_step_mem (l : List BestRow) :
    ∀ (acc : Option BestRow) (b : BestRow),
      l.foldl (fun acc r =>
        match acc with
        | none => some r
        | some c => if rateGt r.returnRate c.returnRate then some r else some c) acc = some b →
      b ∈ l ∨ acc = some b := by
  induction l with
  | nil => intro acc b h; exact Or.inr h
  | cons x t ih =>
    intro acc b h
    rcases ih _ b h with hm | hacc
    · exact Or.inl (List.mem_cons_of_mem x hm)
    · cases acc with
      | none =>
        dsimp only at hacc
        simp only [Option.some.injEq] at hacc
        exact Or.inl (hacc ▸ List.mem_cons_self x t)
      | some c =>
        dsimp only at hacc
        by_cases hgt : rateGt x.returnRate c.returnRate
        · rw [if_pos hgt] at hacc
          simp only [Option.some.injEq] at hacc
          exact Or.inl (hacc ▸ List.mem_cons_self x t)
        · rw [if_neg hgt] at hacc
          exact Or.inr hacc

lemma pickBest_mem {l : List BestRow} {b : BestRow} (h : pickBest l = some b) : b ∈ l := by
  rcases pickBest_step_mem l none b h with hm | hacc
  · exact hm
  · cases hacc

lemma perSymbolSorted_filter (df : List Row) (p : Row → Bool)
    (hs : perSymbolSorted df) : perSymbolSorted (df.filter p) := by
  intro s hsmem
  rw [List.mem_map] at hsmem
  obtain ⟨r, hr, hrs⟩ := hsmem
  have hrdf : r ∈ df := List.mem_of_mem_filter hr
  have hsdf : s ∈ df.map (fun r => r.stock) := List.mem_map.mpr ⟨r, hrdf, hrs⟩
  have hsort := hs s hsdf
  have hsub : List.Sublist (((df.filter p).filter (fun r => decide (r.stock = s))).map
      (fun r => r.date)) ((df.filter (fun r => decide (r.stock = s))).map (fun r => r.date)) :=
    List.Sublist.map _ (List.Sublist.filter _ (List.filter_sublist df))
  exact hsort.sublist hsub

/-- **C1.** On a per-symbol chronologically ordered dataset, every entry of
the weekly, monthly and yearly tables of `calculate_return_rate`, and the
aggregate behind a successful `best_return_rate` result, carries the
chronologically first and last close of its `(symbol, period)` group and
the return rate `(last - first) / first * 100` computed from them. -/
theorem c1_period_aggregator_first_last (df : List Row) (hs : perSymbolSorted df) :
    (∀ e ∈ (calculate_return_rate df).1, firstLastSpec weekKey df e) ∧
    (∀ e ∈ (calculate_return_rate df).2.1, firstLastSpec monthKey df e) ∧
    (∀ e ∈ (calculate_return_rate df).2.2, firstLastSpec yearKey df e) ∧
    (∀ sd sy sm b, parseStartDate sd = some (sy, sm) →
      best_return_rate df sd "month" = .ok (some b) →
      ∃ mo, b.month = some mo ∧
        firstLastSpec monthKey
          (df.filter (fun r => year r.date = sy ∧ month r.date = sm))
          ((b.stock, b.year, mo), b.firstClose, b.lastClose, b.returnRate)) ∧
    (∀ sd sy sm b, parseStartDate sd = some (sy, sm) →
      best_return_rate df sd "year" = .ok (some b) →
      firstLastSpec yearKey (df.filter (fun r => year r.date = sy))
        ((b.stock, b.year), b.firstClose, b.lastClose, b.returnRate)) := by
  refine ⟨?_, ?_, ?_, ?_, ?_⟩
  · exact withReturnRate_groupFirstLast_spec weekKey df
      (key_filter_pairwise weekKey (fun k => k.1) (fun r => rfl) df hs)
  · exact withReturnRate_groupFirstLast_spec monthKey df
      (key_filter_pairwise monthKey (fun k => k.1) (fun r => rfl) df hs)
  · exact withReturnRate_groupFirstLast_spec yearKey df
      (key_filter_pairwise yearKey (fun k => k.1) (fun r => rfl) df hs)
  · intro sd sy sm b hparse hbest
    rw [best_return_rate, hparse] at hbest
    dsimp only at hbest
    rw [if_pos rfl] at hbest
    simp only [Except.ok.injEq] at hbest
    have hmem := pickBest_mem hbest
    rw [List.mem_map] at hmem
    obtain ⟨⟨⟨st, yr, mo⟩, f, la, rr⟩, hein, hmk⟩ := hmem
    subst hmk
    refine ⟨mo, rfl, ?_⟩
    exact withReturnRate_groupFirstLast_spec monthKey _
      (key_filter_pairwise monthKey (fun k => k.1) (fun r => rfl) _
        (perSymbolSorted_filter df _ hs)) _ hein
  · intro sd sy sm b hparse hbest
    rw [best_return_rate, hparse] at hbest
    dsimp only at hbest
    rw [if_neg (by decide : ¬("year" = "month")), if_pos rfl] at hbest
    simp only [Except.ok.injEq] at hbest
    have hmem := pickBest_mem hbest
    rw [List.mem_map] at hmem
    obtain ⟨⟨⟨st, yr⟩, f, la, rr⟩, hein, hmk⟩ := hmem
    subst hmk
    exact withReturnRate_groupFirstLast_spec yearKey _
      (key_filter_pairwise yearKey (fun k => k.1) (fun r => rfl) _
        (perSymbolSorted_filter df _ hs)) _ hein

theorem c1_period_aggregator_first_last_witness :
    perSymbolSorted [rowW0, rowW1] ∧
    ((∀ e ∈ (calculate_return_rate [rowW0, rowW1]).1, firstLastSpec weekKey [rowW0, rowW1] e) ∧
     (∀ e ∈ (calculate_return_rate [rowW0, rowW1]).2.1, firstLastSpec monthKey [rowW0, rowW1] e) ∧
     (∀ e ∈ (calculate_return_rate [rowW0, rowW1]).2.2, firstLastSpec yearKey [rowW0, rowW1] e) ∧
     (∀ sd sy sm b, parseStartDate sd = some (sy, sm) →
       best_return_rate [rowW0, rowW1] sd "month" = .ok (some b) →
       ∃ mo, b.month = some mo ∧
         firstLastSpec monthKey
           ([rowW0, rowW1].filter (fun r => year r.date = sy ∧ month r.date = sm))
           ((b.stock, b.year, mo), b.firstClose, b.lastClose, b.returnRate)) ∧
     (∀ sd sy sm b, parseStartDate sd = some (sy, sm) →
       best_return_rate [rowW0, rowW1] sd "year" = .ok (some b) →
       firstLastSpec yearKey ([rowW0, rowW1].filter (fun r => year r.date = sy))
         ((b.stock, b.year), b.firstClose, b.lastClose, b.returnRate))) :=
  ⟨by decide, c1_period_aggregator_first_last [rowW0, rowW1] (by decide)⟩

/-! ### C8: the Window Aggregator is idempotent -/

lemma windowPartRows_map_toRow (p : List Row) :
    (windowPartRows p).map (fun d => d.toRow) = p := by
  rw [windowPartRows]
  exact mapIdx_map_eq_self p _ (fun d : DRow => d.toRow) (fun i a => rfl)

lemma windowAgg_map_toRow (df : List Row) :
    (windowAgg df).map (fun d => d.toRow)
      = (symbolsInOrder df).flatMap (fun s => sortedPartition df s) := by
  rw [windowAgg, List.map_flatMap]
  exact List.flatMap_congr (fun s _ => windowPartRows_map_toRow (sortedPartition df s))

lemma stock_of_mem_sortedPartition {df : List Row} {s : String} {r : Row}
    (h : r ∈ sortedPartition df s) : r.stock = s :=
  (mem_sortedPartition.mp h).2

lemma symbolsInOrder_rebuilt (df : List Row) :
    symbolsInOrder ((symbolsInOrder df).flatMap (fun s => sortedPartition df s))
      = symbolsInOrder df := by
  rw [symbolsInOrder, List.map_flatMap]
  refine firstOccur_flatMap_blocks (symbolsInOrder df)
    (fun s => (sortedPartition df s).map (fun r => r.stock)) (nodup_firstOccur _) ?_ ?_
  · intro k hk
    intro hnil
    exact sortedPartition_ne_nil hk (List.map_eq_nil.mp hnil)
  · intro k hk x hx
    rw [List.mem_map] at hx
    obtain ⟨r, hr, hrx⟩ := hx
    rw [← hrx]
    exact stock_of_mem_sortedPartition hr

lemma partitionRows_rebuilt (df : List Row) (s : String) (hsym : s ∈ symbolsInOrder df) :
    partitionRows ((symbolsInOrder df).flatMap (fun k => sortedPartition df k)) s
      = sortedPartition df s := by
  rw [partitionRows]
  rw [flatMap_blocks_filter (symbolsInOrder df) (fun k => sortedPartition df k)
    (fun r => r.stock) (nodup_firstOccur _)
    (fun k _ r hr => stock_of_mem_sortedPartition hr) s]
  rw [if_pos hsym]

lemma sortedPartition_rebuilt (df : List Row) (s : String) (hsym : s ∈ symbolsInOrder df) :
    sortedPartition ((symbolsInOrder df).flatMap (fun k => sortedPartition df k)) s
      = sortedPartition df s := by
  rw [sortedPartition, partitionRows_rebuilt df s hsym]
  exact (sortedPartition_sorted df s).insertionSort_eq

/-- **C8.** The Window Aggregator is idempotent: re-running the
`Prev_Close` / `Daily_Return` / moving-average computations (lines 81–95;
`calculate_daily_return` of lines 234–239 recomputes `Daily_Return` by the
same lag expression over the same window) on the aggregator's own output,
without adding new raw rows, reproduces exactly the same derived rows —
every already-computed derived column value is unchanged. -/
theorem c8_window_aggregator_idempotent (df : List Row) :
    windowAgg ((windowAgg df).map (fun d => d.toRow)) = windowAgg df := by
  rw [windowAgg_map_toRow]
  rw [windowAgg, symbolsInOrder_rebuilt]
  rw [windowAgg]
  refine List.flatMap_congr ?_
  intro s hsym
  rw [sortedPartition_rebuilt df s hsym]

end StockAnalysis

